import Mathlib

/-!
# Verification of the Forecast data-diagnostic module

Shallow embedding of `src/util/diagnostic.py` (the streaming schema-inference
and validation engine) and proofs about it.  Cell values and timestamps are
modelled as `String` (the Python code keeps `string`/`timestamp` columns as
`str`; comparisons are lexicographic in both).  A missing value (Python
`None` / pandas `NaN`) is `Option.none`.
-/

set_option maxRecDepth 4000

/-- One attribute record, both for catalog entries (`SchemaAttribute` objects
in the Python source) and for the `{"AttributeName": .., "AttributeType": ..}`
dicts of a `tts_schema["Attributes"]` list, which carry the same two fields. -/
structure SchemaAttribute where
  AttributeName : String
  AttributeType : String
deriving Repr, DecidableEq

/-- `SchemaAttribute.is_valid_name`.  The source runs
`re.match(r"[a-zA-Z][a-zA-Z0-9_]*", name)`: `re.match` anchors at the start
of the string only, and the `[a-zA-Z0-9_]*` tail can match the empty string,
so the test succeeds exactly when the name is non-empty and its first
character is an ASCII letter — characters after the first are unconstrained. -/
def SchemaAttribute.is_valid_name (name : String) : Bool :=
  match name.data with
  | [] => false
  | c :: _ => c.isAlpha

/-- `SchemaAttribute.is_valid_type`: membership in the four-value enumeration. -/
def SchemaAttribute.is_valid_type (typename : String) : Bool :=
  typename == "string" || typename == "integer" || typename == "float"
    || typename == "timestamp"

/-- `SchemaAttribute.__init__`: validates the name, then the type; raising
`ValueError` is modelled as `Except.error` with the offending string. -/
def SchemaAttribute.construct (AttributeName AttributeType : String) :
    Except String SchemaAttribute :=
  if SchemaAttribute.is_valid_name AttributeName then
    if SchemaAttribute.is_valid_type AttributeType then
      .ok ⟨AttributeName, AttributeType⟩
    else
      .error AttributeType
  else
    .error AttributeName

/-- The spec's full-anchored name pattern `[A-Za-z][A-Za-z0-9_]*` (whole-string
match), written from the spec's words for comparison with the source's
`is_valid_name` above. -/
def specFullNameMatch (name : String) : Bool :=
  match name.data with
  | [] => false
  | c :: rest => c.isAlpha && rest.all (fun d => d.isAlphanum || d == '_')

/-- Per-domain target time-series template (`tts` member of a catalog entry):
required and optional fields as ordered association lists (Python dicts keep
insertion order). -/
structure TTSTemplate where
  required_fields : List (String × SchemaAttribute)
  optional_fields : List (String × SchemaAttribute)
deriving Repr, DecidableEq

/-- A catalog entry: `SimpleNamespace(target_field=..., tts=...)`. -/
structure Domain where
  target_field : String
  tts : TTSTemplate
deriving Repr, DecidableEq

/-- The `DOMAINS` dict, as an ordered association list.  Transcribed from the
source, including the `"EC2 CAPACITY"` key (written with a space there) and
the `WEB_TRAFFIC` entry whose required key `"value"` maps to an attribute
object named `"demand"`. -/
def DOMAINS : List (String × Domain) := [
  ("RETAIL", ⟨"demand",
    ⟨[("item_id", ⟨"item_id", "string"⟩),
      ("timestamp", ⟨"timestamp", "timestamp"⟩),
      ("demand", ⟨"demand", "float"⟩)],
     [("location", ⟨"location", "string"⟩)]⟩⟩),
  ("CUSTOM", ⟨"target_value",
    ⟨[("item_id", ⟨"item_id", "string"⟩),
      ("timestamp", ⟨"timestamp", "timestamp"⟩),
      ("target_value", ⟨"target_value", "float"⟩)],
     []⟩⟩),
  ("INVENTORY_PLANNING", ⟨"demand",
    ⟨[("item_id", ⟨"item_id", "string"⟩),
      ("timestamp", ⟨"timestamp", "timestamp"⟩),
      ("demand", ⟨"demand", "float"⟩)],
     [("location", ⟨"location", "string"⟩)]⟩⟩),
  ("EC2 CAPACITY", ⟨"number_of_instances",
    ⟨[("instance_type", ⟨"instance_type", "string"⟩),
      ("timestamp", ⟨"timestamp", "timestamp"⟩),
      ("number_of_instances", ⟨"number_of_instances", "integer"⟩)],
     [("location", ⟨"location", "string"⟩)]⟩⟩),
  ("WORK_FORCE", ⟨"workforce_demand",
    ⟨[("workforce_type", ⟨"workforce_type", "string"⟩),
      ("timestamp", ⟨"timestamp", "timestamp"⟩),
      ("workforce_demand", ⟨"workforce_demand", "float"⟩)],
     [("location", ⟨"location", "string"⟩)]⟩⟩),
  ("WEB_TRAFFIC", ⟨"value",
    ⟨[("item_id", ⟨"item_id", "string"⟩),
      ("timestamp", ⟨"timestamp", "timestamp"⟩),
      ("value", ⟨"demand", "float"⟩)],
     []⟩⟩),
  ("METRICS", ⟨"metric_value",
    ⟨[("metric_name", ⟨"metric_name", "string"⟩),
      ("timestamp", ⟨"timestamp", "timestamp"⟩),
      ("metric_value", ⟨"metric_value", "float"⟩)],
     []⟩⟩)]

/-- `sniff_csv_file`, over the parsed CSV rows of the file.  The source reads
only the first row; `next(reader)` on an empty file raises `StopIteration`,
modelled by returning `none`.  Note the direction of the test: when *not*
every cell of the first row is a valid type keyword, the file is assumed to
have no header (`None` is returned); when every cell *is* a valid type
keyword, the row is returned as the header. -/
def sniff_csv_file (rows : List (List String)) :
    Option (Option (List String) × Nat) :=
  match rows with
  | [] => none
  | row1 :: _ =>
    let ncols := row1.length
    if !(row1.all (fun cell => SchemaAttribute.is_valid_type cell)) then
      some (none, ncols)
    else
      some (some row1, ncols)

/-- Error kinds raised (`ValueError`) by `validate_tts_schema_on_domain`, plus
the `KeyError` a lookup of an unknown domain key would raise.  The spec names
the first two `MissingRequiredField` and `RequiredFieldTypeMismatch`. -/
inductive ValidationError where
  | missingRequiredField (field domain : String)
  | requiredFieldTypeMismatch (field domain : String)
  | domainNotFound (domain : String)
deriving Repr, DecidableEq

/-- The required-field loop of `validate_tts_schema_on_domain` (source lines
196-220): for each required field name, filter the schema's attributes by
name; no match raises the missing-field error, and a first match with a
different type raises the type-mismatch error. -/
def checkRequired (tts_schema : List SchemaAttribute) (domain : String)
    (reqs : List (String × SchemaAttribute)) : Except ValidationError Unit :=
  match reqs with
  | [] => .ok ()
  | (fname, spec) :: rest =>
    match tts_schema.filter (fun f => f.AttributeName == fname) with
    | [] => .error (.missingRequiredField fname domain)
    | m :: _ =>
      if m.AttributeType != spec.AttributeType then
        .error (.requiredFieldTypeMismatch fname domain)
      else
        checkRequired tts_schema domain rest

/-- The optional-field loop (source lines 221-243): returns the
`optional_fields_used` list together with the list of warnings printed for
optional fields present with a mismatched type (each warning records the
field name, the domain's declared type, and the actual type). -/
def collectOptional (tts_schema : List SchemaAttribute)
    (opts : List (String × SchemaAttribute)) :
    List String × List (String × String × String) :=
  match opts with
  | [] => ([], [])
  | (fname, spec) :: rest =>
    let tail := collectOptional tts_schema rest
    match tts_schema.find? (fun f => f.AttributeName == fname) with
    | none => tail
    | some m =>
      if m.AttributeType == spec.AttributeType then
        (fname :: tail.1, tail.2)
      else
        (tail.1, (fname, spec.AttributeType, m.AttributeType) :: tail.2)

/-- `validate_tts_schema_on_domain`.  Succeeds with
`(required_fnames, optional_fields_used, custom_fnames, warnings)`; the Python
function prints the warnings and returns the first three.  `tts_schema` here
is the `"Attributes"` list of the schema dict. -/
def validate_tts_schema_on_domain (tts_schema : List SchemaAttribute)
    (domain : String) :
    Except ValidationError
      (List String × List String × List String ×
        List (String × String × String)) :=
  match DOMAINS.lookup domain with
  | none => .error (.domainNotFound domain)
  | some D => do
    checkRequired tts_schema domain D.tts.required_fields
    let optional_fields_used := (collectOptional tts_schema D.tts.optional_fields).1
    let warnings := (collectOptional tts_schema D.tts.optional_fields).2
    let schema_fnames := tts_schema.map (fun f => f.AttributeName)
    let required_fnames := D.tts.required_fields.map (fun p => p.1)
    let custom_fnames := schema_fnames.filter
      (fun f => !((optional_fields_used ++ required_fnames).contains f))
    .ok (required_fnames, optional_fields_used, custom_fnames, warnings)

/-- Error kinds raised during headerless column-name inference (source lines
437-459).  The spec groups both under `AmbiguousColumnMapping`.
`cannotInferColumnNames n t`: `n` (>1) data columns share detected type `t`;
`domainRequiresMultipleFields n t`: the domain requires `n` (>1) fields of
type `t` but the data contains only one. -/
inductive InferError where
  | cannotInferColumnNames (n : Nat) (t : String)
  | domainRequiresMultipleFields (n : Nat) (t : String)
  | domainMissing (domain : String)
deriving Repr, DecidableEq

/-- Rename the first attribute whose `AttributeType` is `t` (the `next(...)`
plus in-place mutation of source lines 447-449 / 466-470). -/
def renameFirstOfType (t newName : String) (attrs : List SchemaAttribute) :
    List SchemaAttribute :=
  match attrs with
  | [] => []
  | a :: rest =>
    if a.AttributeType == t then { a with AttributeName := newName } :: rest
    else a :: renameFirstOfType t newName rest

/-- The `for schematype in field_counts_by_type` loop of source lines 437-470,
processing the detected types in first-occurrence order.  Type counts are
taken on the current attribute list; renaming never changes a type, so they
equal the counts over the original chunk. -/
def inferLoop (D : Domain) (types : List String)
    (attrs : List SchemaAttribute) : Except InferError (List SchemaAttribute) :=
  match types with
  | [] => .ok attrs
  | t :: rest =>
    let n := attrs.countP (fun a => a.AttributeType == t)
    if 1 < n then
      .error (.cannotInferColumnNames n t)
    else
      let matching_required_fields := (D.tts.required_fields.filter
        (fun p => p.2.AttributeType == t)).map (fun p => p.1)
      match matching_required_fields with
      | _ :: _ :: _ =>
        .error (.domainRequiresMultipleFields matching_required_fields.length t)
      | [f] => inferLoop D rest (renameFirstOfType t f attrs)
      | [] =>
        let matching_optional_fields := (D.tts.optional_fields.filter
          (fun p => p.2.AttributeType == t)).map (fun p => p.1)
        match matching_optional_fields with
        | [g] => inferLoop D rest (renameFirstOfType t g attrs)
        | _ => inferLoop D rest attrs

/-- Headerless column-name inference over the first chunk's inferred
attribute list (pandas integer column labels are rendered as strings).
Processes each detected type (first-occurrence order, as a Python
`defaultdict` iterates) through `inferLoop`. -/
def inferColumnNames (domain : String) (attrs : List SchemaAttribute) :
    Except InferError (List SchemaAttribute) :=
  match DOMAINS.lookup domain with
  | none => .error (.domainMissing domain)
  | some D => inferLoop D ((attrs.map (fun a => a.AttributeType)).dedup) attrs

/-- What the filesystem reports for the `tts_path` argument: a directory
(with the list of file paths `os.walk` yields beneath it), a plain file, or
neither. -/
inductive TTSPath where
  | dir (files : List String)
  | file
  | missing
deriving Repr, DecidableEq

/-- The one fatal error of input resolution (source line 339).  The spec calls
it `InvalidPath`. -/
inductive DiagError where
  | invalidPath (path : String)
deriving Repr, DecidableEq

/-- Case-insensitive `.csv` filter: `f.lower().endswith(".csv")`. -/
def isCsvName (f : String) : Bool := f.toLower.endsWith ".csv"

/-- Input resolution of `diagnose` (source lines 326-343).  For a directory,
the walked file list is sorted; the `.csv`-filtered list replaces it only
when the filter kept at least one file *and* dropped at least one.  A plain
file is used as-is; anything else raises `ValueError`.  No emptiness check
exists: an empty expansion is returned as an empty list, not an error. -/
def resolveInputFiles (p : TTSPath) (tts_path : String) :
    Except DiagError (List String) :=
  match p with
  | .dir files =>
    let tts_filenames := files.mergeSort (fun a b => a ≤ b)
    let filtered_filenames := tts_filenames.filter isCsvName
    let n_raw := tts_filenames.length
    let n_filtered := filtered_filenames.length
    if 0 < n_filtered && n_filtered < n_raw then .ok filtered_filenames
    else .ok tts_filenames
  | .file => .ok [tts_path]
  | .missing => .error (.invalidPath tts_path)

/-!
## Streaming aggregation

A parsed row is one `Option String` cell per schema column (`none` = missing
value).  The pandas frequency tables (`value_counts`, `groupby(...).size()`
outputs and their running sums) are modelled as association lists from key to
`Option Nat`, where a `none` value is a pandas `NaN` entry.  Key order in the
model is first-seen order; pandas sorts `groupby`/index-union keys, but no
theorem below observes key order except on inputs where the two orders
coincide.
-/

/-- A parsed data row: one cell per column. -/
abbrev Row := List (Option String)

/-- A pandas `Series` of counts: keys with `Option Nat` values (`none` = NaN). -/
abbrev CountSeries (K : Type) := List (K × Option Nat)

/-- Entry of a series at a key: `none` if the key is absent *or* its value is
NaN. -/
def getv {K : Type} [BEq K] (s : CountSeries K) (k : K) : Option Nat :=
  (s.lookup k).join

/-- Pandas `Series` addition (`s1 + s2`): the result is indexed by the union
of the two key sets; a key missing from either operand, or carrying NaN in
either, gets NaN.  This is the `+=` of source lines 508-521. -/
def seriesAdd {K : Type} [BEq K] (a b : CountSeries K) : CountSeries K :=
  a.map (fun kv =>
    (kv.1, match kv.2, getv b kv.1 with
           | some x, some y => some (x + y)
           | _, _ => none))
  ++ (b.filter (fun kv => (a.lookup kv.1).isNone)).map (fun kv => (kv.1, (none : Option Nat)))

/-- Sum of the numeric entries of a series — pandas `Series.sum()`, which
skips NaN entries. -/
def seriesSum {K : Type} (s : CountSeries K) : Nat :=
  (s.map (fun kv => kv.2.getD 0)).sum

/-- Cell of row `r` at column index `i` (`none` when missing). -/
def cellAt (r : Row) (i : Nat) : Option String := (r.get? i).join

/-- The joint dimension key of a row: `some` tuple of its dimension-column
values when all of them are present, `none` when any is missing (pandas
`groupby` drops such rows). -/
def dimKey (dims : List Nat) (r : Row) : Option (List String) :=
  match dims with
  | [] => some []
  | i :: rest =>
    match cellAt r i, dimKey rest r with
    | some v, some vs => some (v :: vs)
    | _, _ => none

/-- `tts_chunk[fname].value_counts(dropna=False)`: per-value frequencies of
column `i` over a chunk, with the missing value (`none`) counted as a
distinct value.  (pandas orders by descending count; the model keeps
first-seen order — no theorem observes this order.) -/
def chunkValueCounts (i : Nat) (c : List Row) : CountSeries (Option String) :=
  let vals := c.map (fun r => cellAt r i)
  vals.dedup.map (fun v => (v, some (vals.count v)))

/-- `tts_chunk.groupby(dimension_fields).size()`: counts of each fully
present dimension-value tuple in a chunk; rows with a missing dimension value
are dropped (`groupby` default `dropna=True`). -/
def chunkCombos (dims : List Nat) (c : List Row) : CountSeries (List String) :=
  let keys := c.filterMap (dimKey dims)
  keys.dedup.map (fun k => (k, some (keys.count k)))

/-- Python `min((a, b))` over two values that may each be NaN, as used on the
per-chunk timestamp extrema: any NaN operand poisons the result.  (CPython
would actually raise `TypeError` comparing a string against NaN; the model
totalises that corner as NaN.  No theorem below touches it.) -/
def pyMin (a b : Option String) : Option String :=
  match a, b with
  | some x, some y => some (min x y)
  | _, _ => none

/-- Python `max((a, b))`, same conventions as `pyMin`. -/
def pyMax (a b : Option String) : Option String :=
  match a, b with
  | some x, some y => some (max x y)
  | _, _ => none

/-- `tts_chunk[timestamp_field].min()`: least non-missing value of column
`i`, `none` (NaN) when every value is missing (`skipna` default). -/
def chunkColMin (i : Nat) (c : List Row) : Option String :=
  (c.filterMap (fun r => cellAt r i)).min?

/-- `tts_chunk[timestamp_field].max()`, same conventions. -/
def chunkColMax (i : Nat) (c : List Row) : Option String :=
  (c.filterMap (fun r => cellAt r i)).max?

/-- The tracking variables of source lines 389-396.  The outer `Option` on
the timestamp bounds distinguishes "not yet assigned" (`none`, the Python
`None`) from an assigned NaN (`some none`). -/
structure AggState where
  global_tts_start : Option (Option String)
  global_tts_end : Option (Option String)
  total_records : Nat
  total_records_nonulls : Nat
  num_nulls_by_field : Option (List Nat)
  unique_dimension_vals : List (Nat × CountSeries (Option String))
  unique_dimension_combos : Option (CountSeries (List String))
deriving Repr, DecidableEq

/-- The tracking variables right after initialization. -/
def initAggState : AggState := ⟨none, none, 0, 0, none, [], none⟩

/-- The per-chunk statistics update of source lines 495-521, for a resolved
schema with `ncols` columns, timestamp column `tsIdx` and dimension columns
`dims` (in schema order). -/
def updateChunk (dims : List Nat) (tsIdx : Nat) (ncols : Nat)
    (st : AggState) (c : List Row) : AggState :=
  let chunk_min_ts := chunkColMin tsIdx c
  let chunk_max_ts := chunkColMax tsIdx c
  let chunk_nulls_by_field :=
    (List.range ncols).map (fun i => c.countP (fun r => (cellAt r i).isNone))
  { global_tts_start :=
      match st.global_tts_start with
      | none => some chunk_min_ts
      | some g => some (pyMin g chunk_min_ts)
    global_tts_end :=
      match st.global_tts_end with
      | none => some chunk_max_ts
      | some g => some (pyMax g chunk_max_ts)
    total_records := st.total_records + c.length
    total_records_nonulls :=
      st.total_records_nonulls + c.countP (fun r => r.all (fun v => v.isSome))
    num_nulls_by_field :=
      match st.num_nulls_by_field with
      | none => some chunk_nulls_by_field
      | some prev => some (List.zipWith (· + ·) prev chunk_nulls_by_field)
    unique_dimension_vals := dims.map (fun i =>
      (i, match st.unique_dimension_vals.lookup i with
          | none => chunkValueCounts i c
          | some prev => seriesAdd prev (chunkValueCounts i c)))
    unique_dimension_combos :=
      some (match st.unique_dimension_combos with
            | none => chunkCombos dims c
            | some prev => seriesAdd prev (chunkCombos dims c)) }

/-- Processing one file's chunk stream: the tracking variables are
(re)initialized and then folded over the file's chunks — in the source the
initializers at lines 389-396 sit *inside* the `for tts_filename` loop. -/
def runFile (dims : List Nat) (tsIdx : Nat) (ncols : Nat)
    (chunks : List (List Row)) : AggState :=
  chunks.foldl (updateChunk dims tsIdx ncols) initAggState

/-- The aggregation part of a whole `diagnose` run over several files (each a
list of chunks): because the tracking variables are re-initialized per file
and the report of source lines 524-536 is printed per file (same
indentation level), a run produces one independent `AggState` per file, and
the run's last printed report is the last file's state. -/
def diagnoseAgg (dims : List Nat) (tsIdx : Nat) (ncols : Nat)
    (files : List (List (List Row))) : List AggState :=
  files.map (runFile dims tsIdx ncols)

/-! ## Observation helpers -/

/-- Whether an `Except` result is a success. -/
def exceptIsOk {ε α : Type} : Except ε α → Bool
  | .ok _ => true
  | .error _ => false

/-- `seriesSum` lifted over the optional running series (`0` before any chunk
was processed). -/
def seriesSumO {K : Type} : Option (CountSeries K) → Nat
  | none => 0
  | some s => seriesSum s

/-- First row of the running examples: `item_id=a`. -/
def rowA : Row := [some "a", some "2024-01-01", some "1.0"]

/-- Second row of the running examples: `item_id=b`. -/
def rowB : Row := [some "b", some "2024-01-02", some "2.0"]

/-- Third row of the running examples: `item_id=c`. -/
def rowC : Row := [some "c", some "2024-01-03", some "3.0"]

/-- C3: splitting one file's rows into chunks changes the final aggregation
state.  With rows `a` and `b` in chunks of size one, the pandas `Series`
addition aligns the two one-key count series on the union of their indices
and fills the non-shared keys with NaN, so both combination counts end up
NaN; in a single chunk both are `1`.  The resulting `AggState`s differ,
refuting order-independence of the accumulation. -/
theorem chunk_split_changes_combo_counts :
    (runFile [0] 1 3 [[rowA], [rowB]]).unique_dimension_combos
        = some [(["a"], none), (["b"], none)] ∧
    (runFile [0] 1 3 [[rowA, rowB]]).unique_dimension_combos
        = some [(["a"], some 1), (["b"], some 1)] ∧
    runFile [0] 1 3 [[rowA], [rowB]] ≠ runFile [0] 1 3 [[rowA, rowB]] := by
  have h1 : (runFile [0] 1 3 [[rowA], [rowB]]).unique_dimension_combos
      = some [(["a"], none), (["b"], none)] := by decide
  have h2 : (runFile [0] 1 3 [[rowA, rowB]]).unique_dimension_combos
      = some [(["a"], some 1), (["b"], some 1)] := by decide
  refine ⟨h1, h2, fun h => ?_⟩
  have h3 := congrArg AggState.unique_dimension_combos h
  rw [h1, h2] at h3
  exact absurd h3 (by decide)

/-- C1: the tracking variables are re-initialized for every file (they are
declared inside the `for tts_filename` loop, source lines 389-396) and the
report is printed per file (lines 524-536, same indentation), so a
three-file run yields three independent states; the final report covers only
the last file — one combination entry summing to 1 — instead of the three
distinct items of the whole run. -/
theorem diagnose_reinitializes_state_per_file :
    (diagnoseAgg [0] 1 3 [[[rowA]], [[rowB]], [[rowC]]]).map
        (fun st => st.unique_dimension_combos)
      = [some [(["a"], some 1)], some [(["b"], some 1)],
         some [(["c"], some 1)]] ∧
    (diagnoseAgg [0] 1 3 [[[rowA]], [[rowB]], [[rowC]]]).getLast?
        = some (runFile [0] 1 3 [[rowC]]) ∧
    seriesSumO (runFile [0] 1 3 [[rowC]]).unique_dimension_combos = 1 ∧
    (runFile [0] 1 3 [[rowC]]).total_records = 1 := by
  refine ⟨by decide, by decide, by decide, by decide⟩

/-- C2 counterexample: a first row consisting entirely of `TypeTag` keywords
is returned as the *header* (the `if not all(...)` test of source lines
165-168 treats an all-keyword row as a header, not as data), so sniffing
`"string,timestamp,float"` does not return `header=None`. -/
theorem sniff_all_type_keywords_returns_header :
    sniff_csv_file [["string", "timestamp", "float"]]
        = some (some ["string", "timestamp", "float"], 3) ∧
    sniff_csv_file [["string", "timestamp", "float"]] ≠ some (none, 3) := by
  refine ⟨by decide, by decide⟩

/-- C6: `is_valid_name` uses `re.match`, which anchors only at the start of
the string, so `"a-b"` — which does not fully match
`[A-Za-z][A-Za-z0-9_]*` — is accepted and `SchemaAttribute` construction
succeeds, contradicting the documented full-pattern invariant. -/
theorem construct_accepts_nonfull_regex_name :
    SchemaAttribute.is_valid_name "a-b" = true ∧
    SchemaAttribute.construct "a-b" "string" = .ok ⟨"a-b", "string"⟩ ∧
    specFullNameMatch "a-b" = false := by
  refine ⟨by decide, by rfl, by decide⟩

/-- C7 counterexample: an empty expansion (directory with no files) is
returned as an empty file list, not an error — `diagnose` has no
`NoInputFiles` check (the loop over files simply runs zero times). -/
theorem resolve_empty_dir_no_error :
    resolveInputFiles (.dir []) "data" = .ok [] := by
  simp [resolveInputFiles]

/-- C9 counterexample: the catalog key for the EC2 domain is spelled
`"EC2 CAPACITY"` (with a space, source line 98), so `EC2_CAPACITY` is not a
key of the catalog. -/
theorem domains_key_underscore_absent :
    (DOMAINS.map (fun p => p.1)).contains "EC2_CAPACITY" = false := by decide

/-- C9 amended: the catalog is keyed by exactly RETAIL, CUSTOM,
INVENTORY_PLANNING, `"EC2 CAPACITY"` (spelled with a space), WORK_FORCE,
WEB_TRAFFIC and METRICS, each entry carrying a target field and non-empty
required fields. -/
theorem domains_key_list :
    DOMAINS.map (fun p => p.1)
      = ["RETAIL", "CUSTOM", "INVENTORY_PLANNING", "EC2 CAPACITY",
         "WORK_FORCE", "WEB_TRAFFIC", "METRICS"] ∧
    ∀ p ∈ DOMAINS, p.2.tts.required_fields ≠ [] := by
  refine ⟨by decide, by decide⟩

/-- C8 counterexample: a detected type with *zero* matching domain fields
does not make inference fail.  For `RETAIL` and four headerless columns of
types string/timestamp/float/integer, the integer column has no required or
optional candidate; it is left unmapped (keeping its positional label) and
the run proceeds — validation then succeeds, classifying it as a custom
field. -/
theorem infer_zero_candidate_type_succeeds :
    inferColumnNames "RETAIL"
        [⟨"0", "string"⟩, ⟨"1", "timestamp"⟩, ⟨"2", "float"⟩,
         ⟨"3", "integer"⟩]
      = .ok [⟨"item_id", "string"⟩, ⟨"timestamp", "timestamp"⟩,
             ⟨"demand", "float"⟩, ⟨"3", "integer"⟩] ∧
    validate_tts_schema_on_domain
        [⟨"item_id", "string"⟩, ⟨"timestamp", "timestamp"⟩,
         ⟨"demand", "float"⟩, ⟨"3", "integer"⟩] "RETAIL"
      = .ok (["item_id", "timestamp", "demand"], [], ["3"], []) := by
  refine ⟨by rfl, by rfl⟩

/-- C2 amended: the header heuristic runs in the direction the source
implements — a first row consisting entirely of `TypeTag` keywords is
returned as the header; a first row with at least one non-keyword cell is
treated as data (`header = None`).  Sniffing a file whose first row is
`"item_id,2024-01-01,10.5"` therefore returns `header=None, column_count=3`,
while `"string,timestamp,float"` is returned as a header row. -/
theorem sniff_header_heuristic_amended (row1 : List String)
    (rest : List (List String)) :
    ((∀ cell ∈ row1, SchemaAttribute.is_valid_type cell = true) →
      sniff_csv_file (row1 :: rest) = some (some row1, row1.length)) ∧
    ((∃ cell ∈ row1, SchemaAttribute.is_valid_type cell = false) →
      sniff_csv_file (row1 :: rest) = some (none, row1.length)) ∧
    sniff_csv_file [["item_id", "2024-01-01", "10.5"]] = some (none, 3) := by
  refine ⟨?_, ?_, by decide⟩
  · intro h
    have hall : row1.all (fun cell => SchemaAttribute.is_valid_type cell) = true :=
      List.all_eq_true.mpr h
    simp [sniff_csv_file, hall]
  · rintro ⟨cell, hc, hv⟩
    have hall : row1.all (fun cell => SchemaAttribute.is_valid_type cell) = false := by
      rw [List.all_eq_false]
      exact ⟨cell, hc, by simp [hv]⟩
    simp [sniff_csv_file, hall]

/-- Witness for the amended C2 theorem at a concrete headerless-looking row. -/
theorem sniff_header_heuristic_amended_witness :
    sniff_csv_file [["item_id", "x"]] = some (none, 2) :=
  (sniff_header_heuristic_amended ["item_id", "x"] []).2.1
    ⟨"item_id", by decide, by decide⟩

/-- C7 amended: a path that is neither a file nor a directory fails with
`InvalidPath`; an empty expansion produces an empty input list and *no*
error (there is no `NoInputFiles` failure — with zero files the per-file
loop, and with it all reporting, simply never runs); a plain file resolves
to itself. -/
theorem resolve_inputs_amended :
    (∀ path : String,
      resolveInputFiles .missing path = .error (.invalidPath path)) ∧
    (∀ path : String, resolveInputFiles (.dir []) path = .ok []) ∧
    resolveInputFiles .file "data.csv" = .ok ["data.csv"] := by
  refine ⟨fun path => rfl, fun path => by simp [resolveInputFiles], rfl⟩

/-- Looking up a catalog member by its key. -/
theorem lookup_DOMAINS {dname : String} {D : Domain}
    (h : (dname, D) ∈ DOMAINS) : DOMAINS.lookup dname = some D := by
  simp only [DOMAINS, List.mem_cons, List.not_mem_nil, or_false,
    Prod.mk.injEq] at h
  rcases h with ⟨rfl, rfl⟩ | ⟨rfl, rfl⟩ | ⟨rfl, rfl⟩ | ⟨rfl, rfl⟩
    | ⟨rfl, rfl⟩ | ⟨rfl, rfl⟩ | ⟨rfl, rfl⟩ <;> rfl

/-- Renaming an attribute never changes any type count. -/
theorem countP_renameFirstOfType (t f t' : String)
    (attrs : List SchemaAttribute) :
    (renameFirstOfType t f attrs).countP (fun a => a.AttributeType == t')
      = attrs.countP (fun a => a.AttributeType == t') := by
  induction attrs with
  | nil => rfl
  | cons a rest ih =>
    unfold renameFirstOfType
    by_cases h : (a.AttributeType == t) = true
    · simp [h, List.countP_cons]
    · simp [h, List.countP_cons, ih]

/-- If some type still to be processed is carried by more than one column,
the inference loop ends in an error. -/
theorem inferLoop_error_of_dup (D : Domain) :
    ∀ (types : List String) (attrs : List SchemaAttribute) (t : String),
      t ∈ types → 1 < attrs.countP (fun a => a.AttributeType == t) →
      exceptIsOk (inferLoop D types attrs) = false := by
  intro types
  induction types with
  | nil => intro attrs t ht; exact absurd ht (List.not_mem_nil t)
  | cons t0 rest ih =>
    intro attrs t ht hcnt
    unfold inferLoop
    by_cases h0 : 1 < attrs.countP (fun a => a.AttributeType == t0)
    · simp [h0, exceptIsOk]
    · have hne : t ≠ t0 := fun he => h0 (he ▸ hcnt)
      have htr : t ∈ rest := by
        rcases List.mem_cons.mp ht with h | h
        · exact absurd h hne
        · exact h
      rw [if_neg h0]
      dsimp only
      split
      · simp [exceptIsOk]
      · exact ih _ t htr (by rw [countP_renameFirstOfType]; exact hcnt)
      · split
        · exact ih _ t htr (by rw [countP_renameFirstOfType]; exact hcnt)
        · exact ih _ t htr hcnt

/-- The `RETAIL` catalog entry, for concrete instantiations. -/
def retailDomain : Domain :=
  ⟨"demand",
   ⟨[("item_id", ⟨"item_id", "string"⟩),
     ("timestamp", ⟨"timestamp", "timestamp"⟩),
     ("demand", ⟨"demand", "float"⟩)],
    [("location", ⟨"location", "string"⟩)]⟩⟩

/-- C8 amended: for every catalog domain, headerless name inference fails
whenever more than one data column shares an inferred type (the spec's
`AmbiguousColumnMapping`); in particular two `float` columns under `RETAIL`
fail with the two-columns-share-a-type error.  (A type with zero matching
domain fields does *not* fail — see the counterexample theorem — and no
catalog domain declares two required fields of one type, so the
domain-requires-multiple branch cannot fire on catalog domains.) -/
theorem infer_ambiguity_amended (dname : String) (D : Domain)
    (hmem : (dname, D) ∈ DOMAINS) (attrs : List SchemaAttribute)
    (t : String)
    (hdup : 1 < attrs.countP (fun a => a.AttributeType == t)) :
    exceptIsOk (inferColumnNames dname attrs) = false ∧
    inferColumnNames "RETAIL" [⟨"0", "float"⟩, ⟨"1", "float"⟩]
      = .error (.cannotInferColumnNames 2 "float") := by
  refine ⟨?_, by rfl⟩
  unfold inferColumnNames
  rw [lookup_DOMAINS hmem]
  apply inferLoop_error_of_dup D _ attrs t _ hdup
  have hpos : 0 < attrs.countP (fun a => a.AttributeType == t) :=
    Nat.lt_trans Nat.zero_lt_one hdup
  obtain ⟨a, ha, hat⟩ := List.countP_pos_iff.mp hpos
  have : a.AttributeType = t := by exact_mod_cast eq_of_beq hat
  exact List.mem_dedup.mpr (this ▸ List.mem_map_of_mem _ ha)

/-- Witness for the amended C8 theorem: the concrete two-float `RETAIL`
scenario fails. -/
theorem infer_ambiguity_amended_witness :
    exceptIsOk (inferColumnNames "RETAIL"
      [⟨"0", "float"⟩, ⟨"1", "float"⟩]) = false :=
  (infer_ambiguity_amended "RETAIL" retailDomain (by decide)
    [⟨"0", "float"⟩, ⟨"1", "float"⟩] "float" (by decide)).1

/-- Two attributes of a schema with pairwise-distinct attribute names that
share a name are the same attribute. -/
theorem attr_name_inj {S : List SchemaAttribute}
    (hnd : (S.map (fun a => a.AttributeName)).Nodup) {a b : SchemaAttribute}
    (ha : a ∈ S) (hb : b ∈ S) (hab : a.AttributeName = b.AttributeName) :
    a = b :=
  List.inj_on_of_nodup_map hnd ha hb hab

/-- Characterization of the required-field loop's success, for schemas with
pairwise-distinct attribute names: it succeeds exactly when every required
field has a same-named attribute of the declared type. -/
theorem checkRequired_ok_iff (S : List SchemaAttribute) (d : String)
    (hnd : (S.map (fun a => a.AttributeName)).Nodup) :
    ∀ reqs : List (String × SchemaAttribute),
      (checkRequired S d reqs = .ok () ↔
        ∀ p ∈ reqs, ∃ a ∈ S,
          a.AttributeName = p.1 ∧ a.AttributeType = p.2.AttributeType) := by
  intro reqs
  induction reqs with
  | nil => simp [checkRequired]
  | cons p rest ih =>
    obtain ⟨fname, spec⟩ := p
    rw [checkRequired]
    cases hfil : S.filter (fun f => f.AttributeName == fname) with
    | nil =>
      dsimp only
      constructor
      · intro h; exact absurd h (by simp)
      · intro hall
        obtain ⟨a, ha, hname, -⟩ := hall _ (List.mem_cons_self _ _)
        have : a ∈ S.filter (fun f => f.AttributeName == fname) :=
          List.mem_filter.mpr ⟨ha, by simp [hname]⟩
        rw [hfil] at this
        exact absurd this (List.not_mem_nil a)
    | cons m ms =>
      dsimp only
      have hmmem : m ∈ S.filter (fun f => f.AttributeName == fname) := by
        rw [hfil]; exact List.mem_cons_self m ms
      obtain ⟨hmS, hmbeq⟩ := List.mem_filter.mp hmmem
      have hmname : m.AttributeName = fname := by simpa using hmbeq
      by_cases hty : m.AttributeType = spec.AttributeType
      · rw [if_neg (by simp [hty])]
        rw [ih]
        simp only [List.forall_mem_cons]
        constructor
        · intro h; exact ⟨⟨m, hmS, hmname, hty⟩, h⟩
        · rintro ⟨-, h⟩; exact h
      · rw [if_pos (by simpa using hty)]
        constructor
        · intro h; exact absurd h (by simp)
        · intro hall
          obtain ⟨a, ha, hname, haty⟩ := hall _ (List.mem_cons_self _ _)
          have heq : a = m := attr_name_inj hnd ha hmS (hname.trans hmname.symm)
          exact absurd (heq ▸ haty) hty

/-- Soundness of the missing-required-field error: it names a required field
for which no same-named attribute exists in the schema. -/
theorem checkRequired_error_missing (S : List SchemaAttribute) (d : String) :
    ∀ (reqs : List (String × SchemaAttribute)) (f d' : String),
      checkRequired S d reqs = .error (.missingRequiredField f d') →
      f ∈ reqs.map (fun p => p.1) ∧ ∀ a ∈ S, a.AttributeName ≠ f := by
  intro reqs
  induction reqs with
  | nil => intro f d' h; exact absurd h (by simp [checkRequired])
  | cons p rest ih =>
    obtain ⟨fname, spec⟩ := p
    intro f d' h
    rw [checkRequired] at h
    cases hfil : S.filter (fun g => g.AttributeName == fname) with
    | nil =>
      rw [hfil] at h
      dsimp only at h
      injection h with h'
      injection h' with h1 h2
      subst h1
      refine ⟨by simp, fun a ha hname => ?_⟩
      have : a ∈ S.filter (fun g => g.AttributeName == fname) :=
        List.mem_filter.mpr ⟨ha, by simp [hname]⟩
      rw [hfil] at this
      exact absurd this (List.not_mem_nil a)
    | cons m ms =>
      rw [hfil] at h
      dsimp only at h
      by_cases hty : (m.AttributeType != spec.AttributeType) = true
      · rw [if_pos hty] at h
        injection h with h'
        exact absurd h' (by simp)
      · rw [if_neg hty] at h
        obtain ⟨hmem, hall⟩ := ih f d' h
        refine ⟨?_, hall⟩
        simp only [List.map_cons, List.mem_cons]
        exact Or.inr hmem

/-- Soundness of the required-field type-mismatch error: it names a required
field whose first same-named schema attribute has a different type. -/
theorem checkRequired_error_mismatch (S : List SchemaAttribute) (d : String) :
    ∀ (reqs : List (String × SchemaAttribute)) (f d' : String),
      checkRequired S d reqs = .error (.requiredFieldTypeMismatch f d') →
      ∃ p ∈ reqs, p.1 = f ∧ ∃ a ∈ S,
        a.AttributeName = f ∧ a.AttributeType ≠ p.2.AttributeType := by
  intro reqs
  induction reqs with
  | nil => intro f d' h; exact absurd h (by simp [checkRequired])
  | cons p rest ih =>
    obtain ⟨fname, spec⟩ := p
    intro f d' h
    rw [checkRequired] at h
    cases hfil : S.filter (fun g => g.AttributeName == fname) with
    | nil =>
      rw [hfil] at h
      dsimp only at h
      injection h with h'
      exact absurd h' (by simp)
    | cons m ms =>
      rw [hfil] at h
      dsimp only at h
      have hmmem : m ∈ S.filter (fun g => g.AttributeName == fname) := by
        rw [hfil]; exact List.mem_cons_self m ms
      obtain ⟨hmS, hmbeq⟩ := List.mem_filter.mp hmmem
      have hmname : m.AttributeName = fname := by simpa using hmbeq
      by_cases hty : (m.AttributeType != spec.AttributeType) = true
      · rw [if_pos hty] at h
        injection h with h'
        injection h' with h1 h2
        subst h1
        exact ⟨(fname, spec), List.mem_cons_self _ _, rfl,
          m, hmS, hmname, by simpa using hty⟩
      · rw [if_neg hty] at h
        obtain ⟨q, hq, hq1, a, ha, hname, haty⟩ := ih f d' h
        exact ⟨q, List.mem_cons_of_mem _ hq, hq1, a, ha, hname, haty⟩

/-- When the required-field phase succeeds, `validate_tts_schema_on_domain`
returns the domain's required names, the used optional names, the custom
names, and the optional-mismatch warnings. -/
theorem validate_eq_of_checkRequired_ok {S : List SchemaAttribute}
    {dname : String} {D : Domain} (hlook : DOMAINS.lookup dname = some D)
    (hcr : checkRequired S dname D.tts.required_fields = .ok ()) :
    validate_tts_schema_on_domain S dname = .ok
      (D.tts.required_fields.map (fun p => p.1),
       (collectOptional S D.tts.optional_fields).1,
       (S.map (fun f => f.AttributeName)).filter
         (fun f => !(((collectOptional S D.tts.optional_fields).1
            ++ D.tts.required_fields.map (fun p => p.1)).contains f)),
       (collectOptional S D.tts.optional_fields).2) := by
  unfold validate_tts_schema_on_domain
  rw [hlook]
  dsimp only
  rw [hcr]
  rfl

/-- When the required-field phase fails, `validate_tts_schema_on_domain`
propagates its error. -/
theorem validate_eq_of_checkRequired_error {S : List SchemaAttribute}
    {dname : String} {D : Domain} (hlook : DOMAINS.lookup dname = some D)
    {e : ValidationError}
    (hcr : checkRequired S dname D.tts.required_fields = .error e) :
    validate_tts_schema_on_domain S dname = .error e := by
  unfold validate_tts_schema_on_domain
  rw [hlook]
  dsimp only
  rw [hcr]
  rfl

/-- C4: for every catalog domain `D` and schema `S` with pairwise-distinct
attribute names, validation (i) succeeds exactly when every required field
of `D` has a same-named attribute of the declared type in `S`, (ii) on
success returns a required-field list exactly equal to `D`'s required keys,
(iii) fails with the missing-required-field error only naming a required
field with no same-named attribute, and (iv) fails with the type-mismatch
error only naming a required field whose same-named attribute carries a
different type.  (When both a missing and a mismatched field exist, the
loop reports the first offender in the domain's declared field order.) -/
theorem validate_required_fields_characterization (dname : String)
    (D : Domain) (hmem : (dname, D) ∈ DOMAINS) (S : List SchemaAttribute)
    (hnd : (S.map (fun a => a.AttributeName)).Nodup) :
    (exceptIsOk (validate_tts_schema_on_domain S dname) = true ↔
      ∀ p ∈ D.tts.required_fields, ∃ a ∈ S,
        a.AttributeName = p.1 ∧ a.AttributeType = p.2.AttributeType) ∧
    (∀ r, validate_tts_schema_on_domain S dname = .ok r →
      r.1 = D.tts.required_fields.map (fun p => p.1)) ∧
    (∀ f d, validate_tts_schema_on_domain S dname
        = .error (.missingRequiredField f d) →
      f ∈ D.tts.required_fields.map (fun p => p.1) ∧
        ∀ a ∈ S, a.AttributeName ≠ f) ∧
    (∀ f d, validate_tts_schema_on_domain S dname
        = .error (.requiredFieldTypeMismatch f d) →
      ∃ p ∈ D.tts.required_fields, p.1 = f ∧ ∃ a ∈ S,
        a.AttributeName = f ∧ a.AttributeType ≠ p.2.AttributeType) := by
  cases hcr : checkRequired S dname D.tts.required_fields with
  | ok u =>
    cases u
    have hval := validate_eq_of_checkRequired_ok (lookup_DOMAINS hmem) hcr
    refine ⟨?_, ?_, ?_, ?_⟩
    · rw [hval]
      constructor
      · intro _; exact (checkRequired_ok_iff S dname hnd _).mp hcr
      · intro _; rfl
    · intro r hr
      rw [hval] at hr
      injection hr with h
      rw [← h]
    · intro f d h
      rw [hval] at h
      exact absurd h (by simp)
    · intro f d h
      rw [hval] at h
      exact absurd h (by simp)
  | error e =>
    have hval := validate_eq_of_checkRequired_error (lookup_DOMAINS hmem) hcr
    refine ⟨?_, ?_, ?_, ?_⟩
    · rw [hval]
      constructor
      · intro h; exact absurd h (by simp [exceptIsOk])
      · intro hall
        have := (checkRequired_ok_iff S dname hnd _).mpr hall
        rw [hcr] at this
        exact absurd this (by simp)
    · intro r hr
      rw [hval] at hr
      exact absurd hr (by simp)
    · intro f d h
      rw [hval] at h
      injection h with h'
      subst h'
      exact checkRequired_error_missing S dname _ f d hcr
    · intro f d h
      rw [hval] at h
      injection h with h'
      subst h'
      exact checkRequired_error_mismatch S dname _ f d hcr

/-- A schema exactly matching `RETAIL`'s required fields. -/
def schemaOkRetail : List SchemaAttribute :=
  [⟨"item_id", "string"⟩, ⟨"timestamp", "timestamp"⟩, ⟨"demand", "float"⟩]

/-- Witness for C4 at the `RETAIL` domain and a conforming schema. -/
theorem validate_required_fields_characterization_witness :
    exceptIsOk (validate_tts_schema_on_domain schemaOkRetail "RETAIL") = true :=
  (validate_required_fields_characterization "RETAIL" retailDomain
    (by decide) schemaOkRetail (by decide)).1.mpr (by decide)

/-- Every name in `optional_fields_used` is a key of the optional template. -/
theorem collectOptional_used_subset (S : List SchemaAttribute) :
    ∀ (opts : List (String × SchemaAttribute)) (x : String),
      x ∈ (collectOptional S opts).1 → x ∈ opts.map (fun p => p.1) := by
  intro opts
  induction opts with
  | nil => intro x hx; exact absurd hx (List.not_mem_nil x)
  | cons p rest ih =>
    obtain ⟨g, gs⟩ := p
    intro x hx
    rw [collectOptional] at hx
    simp only [List.map_cons, List.mem_cons]
    cases hfind : S.find? (fun f => f.AttributeName == g) with
    | none =>
      rw [hfind] at hx
      exact Or.inr (ih x hx)
    | some m =>
      rw [hfind] at hx
      dsimp only at hx
      by_cases hty : (m.AttributeType == gs.AttributeType) = true
      · rw [if_pos hty] at hx
        rcases List.mem_cons.mp hx with h | h
        · exact Or.inl h
        · exact Or.inr (ih x h)
      · rw [if_neg hty] at hx
        exact Or.inr (ih x hx)

/-- With pairwise-distinct attribute names, `find?` by name returns the
unique attribute of that name. -/
theorem find_attr_unique {S : List SchemaAttribute}
    (hnd : (S.map (fun a => a.AttributeName)).Nodup) {a : SchemaAttribute}
    {fo : String} (ha : a ∈ S) (haname : a.AttributeName = fo) :
    S.find? (fun f => f.AttributeName == fo) = some a := by
  induction S with
  | nil => exact absurd ha (List.not_mem_nil a)
  | cons b rest ih =>
    rw [List.find?]
    by_cases hb : (b.AttributeName == fo) = true
    · rw [hb]
      have hbname : b.AttributeName = fo := by simpa using hb
      have : a = b := attr_name_inj hnd ha (List.mem_cons_self b rest)
        (haname.trans hbname.symm)
      rw [this]
    · rw [Bool.not_eq_true] at hb
      rw [hb]
      have hane : a ≠ b := by
        intro he
        rw [he] at haname
        simp [haname] at hb
      have harest : a ∈ rest := by
        rcases List.mem_cons.mp ha with h | h
        · exact absurd h hane
        · exact h
      have hndrest : (rest.map (fun x => x.AttributeName)).Nodup := by
        rw [List.map_cons] at hnd
        exact hnd.of_cons
      exact ih hndrest harest

/-- An optional field present with a mismatched type is not collected as
used; instead a warning carrying its name is collected. -/
theorem collectOptional_mismatch (S : List SchemaAttribute)
    {a : SchemaAttribute} {fo : String} {osp : SchemaAttribute}
    (hfind : S.find? (fun f => f.AttributeName == fo) = some a)
    (haty : a.AttributeType ≠ osp.AttributeType) :
    ∀ opts : List (String × SchemaAttribute),
      (opts.map (fun p => p.1)).Nodup → (fo, osp) ∈ opts →
      fo ∉ (collectOptional S opts).1 ∧
        ∃ w ∈ (collectOptional S opts).2, w.1 = fo := by
  intro opts
  induction opts with
  | nil => intro _ hmem; exact absurd hmem (List.not_mem_nil _)
  | cons p rest ih =>
    obtain ⟨g, gs⟩ := p
    intro hnd hmem
    have hndrest : (rest.map (fun p => p.1)).Nodup := by
      rw [List.map_cons] at hnd
      exact hnd.of_cons
    have hgnotin : g ∉ rest.map (fun p => p.1) := by
      rw [List.map_cons] at hnd
      exact (List.nodup_cons.mp hnd).1
    rw [collectOptional]
    by_cases hg : g = fo
    · subst hg
      have hsp : gs = osp := by
        rcases List.mem_cons.mp hmem with h | h
        · exact ((Prod.mk.injEq _ _ _ _ ▸ h).2).symm
        · exact absurd (List.mem_map_of_mem (fun p => p.1) h) hgnotin
      subst hsp
      rw [hfind]
      dsimp only
      rw [if_neg (by simpa using haty)]
      constructor
      · intro hx
        exact absurd (collectOptional_used_subset S rest g hx) hgnotin
      · exact ⟨(g, gs.AttributeType, a.AttributeType),
          List.mem_cons_self _ _, rfl⟩
    · have hmemrest : (fo, osp) ∈ rest := by
        rcases List.mem_cons.mp hmem with h | h
        · exact absurd ((Prod.mk.injEq _ _ _ _ ▸ h).1).symm hg
        · exact h
      obtain ⟨hnotin, w, hw, hw1⟩ := ih hndrest hmemrest
      cases hfg : S.find? (fun f => f.AttributeName == g) with
      | none => exact ⟨hnotin, w, hw, hw1⟩
      | some m =>
        dsimp only
        by_cases hty : (m.AttributeType == gs.AttributeType) = true
        · rw [if_pos hty]
          constructor
          · intro hx
            rcases List.mem_cons.mp hx with h | h
            · exact hg h.symm
            · exact hnotin h
          · exact ⟨w, hw, hw1⟩
        · rw [if_neg hty]
          exact ⟨hnotin, w, List.mem_cons_of_mem _ hw, hw1⟩

/-- C5: for every catalog domain `D` and schema `S` (distinct attribute
names, required fields satisfied) that contains an attribute named like an
optional field of `D` but with a different type, validation does not fail:
it succeeds, a warning naming the field is emitted, the field is excluded
from the returned optional-used list, and it is included in the returned
custom-field list. -/
theorem validate_optional_type_mismatch_reclassified (dname : String)
    (D : Domain) (hmem : (dname, D) ∈ DOMAINS) (S : List SchemaAttribute)
    (hnd : (S.map (fun a => a.AttributeName)).Nodup)
    (hreq : ∀ p ∈ D.tts.required_fields, ∃ a ∈ S,
      a.AttributeName = p.1 ∧ a.AttributeType = p.2.AttributeType)
    (fo : String) (osp : SchemaAttribute)
    (hopt : (fo, osp) ∈ D.tts.optional_fields)
    (a : SchemaAttribute) (ha : a ∈ S) (haname : a.AttributeName = fo)
    (haty : a.AttributeType ≠ osp.AttributeType) :
    ∃ req opt cust warns,
      validate_tts_schema_on_domain S dname = .ok (req, opt, cust, warns) ∧
      fo ∉ opt ∧ fo ∈ cust ∧ ∃ w ∈ warns, w.1 = fo := by
  have hlook := lookup_DOMAINS hmem
  have hcr : checkRequired S dname D.tts.required_fields = .ok () :=
    (checkRequired_ok_iff S dname hnd _).mpr hreq
  have hval := validate_eq_of_checkRequired_ok hlook hcr
  have hfind : S.find? (fun f => f.AttributeName == fo) = some a :=
    find_attr_unique hnd ha haname
  have hfacts : (D.tts.optional_fields.map (fun p => p.1)).Nodup ∧
      fo ∉ D.tts.required_fields.map (fun p => p.1) := by
    clear hlook hcr hval hreq
    simp only [DOMAINS, List.mem_cons, List.not_mem_nil, or_false,
      Prod.mk.injEq] at hmem
    rcases hmem with ⟨rfl, rfl⟩ | ⟨rfl, rfl⟩ | ⟨rfl, rfl⟩ | ⟨rfl, rfl⟩
      | ⟨rfl, rfl⟩ | ⟨rfl, rfl⟩ | ⟨rfl, rfl⟩ <;>
    first
      | exact absurd hopt (List.not_mem_nil _)
      | (simp only [List.mem_singleton, Prod.mk.injEq] at hopt
         obtain ⟨rfl, rfl⟩ := hopt
         exact ⟨by decide, by decide⟩)
  obtain ⟨hoptnd, hfonreq⟩ := hfacts
  obtain ⟨hfonopt, w, hw, hw1⟩ :=
    collectOptional_mismatch S hfind haty D.tts.optional_fields hoptnd hopt
  refine ⟨_, _, _, _, hval, hfonopt, ?_, ⟨w, hw, hw1⟩⟩
  apply List.mem_filter.mpr
  constructor
  · exact haname ▸ List.mem_map_of_mem (fun f => f.AttributeName) ha
  · have hnmem : fo ∉ ((collectOptional S D.tts.optional_fields).1
        ++ D.tts.required_fields.map (fun p => p.1)) := by
      rw [List.mem_append]
      rintro (h | h)
      · exact hfonopt h
      · exact hfonreq h
    simpa using hnmem

/-- A `RETAIL`-conforming schema that also uses the optional `location`
name with a non-matching type. -/
def schemaRetailLocInt : List SchemaAttribute :=
  [⟨"item_id", "string"⟩, ⟨"timestamp", "timestamp"⟩, ⟨"demand", "float"⟩,
   ⟨"location", "integer"⟩]

/-- Witness for C5: `location` declared as `integer` under `RETAIL` is
reclassified as a custom field with a warning. -/
theorem validate_optional_type_mismatch_reclassified_witness :
    ∃ req opt cust warns,
      validate_tts_schema_on_domain schemaRetailLocInt "RETAIL"
        = .ok (req, opt, cust, warns) ∧
      "location" ∉ opt ∧ "location" ∈ cust ∧ ∃ w ∈ warns, w.1 = "location" :=
  validate_optional_type_mismatch_reclassified "RETAIL" retailDomain
    (by decide) schemaRetailLocInt (by decide) (by decide)
    "location" ⟨"location", "string"⟩ (by decide)
    ⟨"location", "integer"⟩ (by decide) (by decide) (by decide)

/-! ## Series lemmas for the aggregation proofs -/

/-- Looking up a key in a table built by mapping over a key list containing
it yields that key's image. -/
theorem lookup_map_self {K : Type} [BEq K] [LawfulBEq K] (m : List K)
    (f : K → Option Nat) (v : K) (hv : v ∈ m) :
    (m.map (fun x => (x, f x))).lookup v = some (f v) := by
  induction m with
  | nil => exact absurd hv (List.not_mem_nil v)
  | cons x rest ih =>
    rw [List.map_cons, List.lookup]
    by_cases h : (v == x) = true
    · rw [h]
      rw [eq_of_beq h]
    · rw [Bool.not_eq_true] at h
      rw [h]
      have hvrest : v ∈ rest := by
        rcases List.mem_cons.mp hv with h' | h'
        · subst h'; simp at h
        · exact h'
      exact ih hvrest

/-- Sum of a series splits over append. -/
theorem seriesSum_append {K : Type} (a b : CountSeries K) :
    seriesSum (a ++ b) = seriesSum a + seriesSum b := by
  simp [seriesSum]

/-- A series of all-NaN entries sums to zero. -/
theorem seriesSum_map_none {K1 K : Type} (l : List K1) (f : K1 → K) :
    seriesSum (l.map (fun x => (f x, (none : Option Nat)))) = 0 := by
  rw [seriesSum, List.map_map]
  exact List.sum_eq_zero (by simp)

/-- A key absent from a table looks up to `none`. -/
theorem lookup_eq_none_iff {K V : Type} [BEq K] [LawfulBEq K]
    (l : List (K × V)) (k : K) :
    l.lookup k = none ↔ k ∉ l.map (fun kv => kv.1) := by
  induction l with
  | nil => simp
  | cons kv rest ih =>
    obtain ⟨k0, v0⟩ := kv
    rw [List.lookup]
    by_cases h : (k == k0) = true
    · rw [h]
      have : k = k0 := eq_of_beq h
      simp [this]
    · rw [Bool.not_eq_true] at h
      rw [h, ih]
      have : ¬ k = k0 := by
        intro he; subst he; simp at h
      simp [this]

/-- Summing looked-up values over pairwise-distinct keys never exceeds the
series total. -/
theorem sum_getv_le_seriesSum {K : Type} [BEq K] [LawfulBEq K] :
    ∀ (b : CountSeries K) (ks : List K), ks.Nodup →
      (ks.map (fun k => (getv b k).getD 0)).sum ≤ seriesSum b := by
  intro b
  induction b with
  | nil =>
    intro ks _
    have : ∀ k ∈ ks, (getv ([] : CountSeries K) k).getD 0 = 0 := by
      intro k _; rfl
    rw [List.map_congr_left this]
    simp [seriesSum]
  | cons kv b' ih =>
    obtain ⟨k0, v0⟩ := kv
    intro ks hnd
    have hgetv_ne : ∀ k, (k == k0) = false →
        getv ((k0, v0) :: b') k = getv b' k := by
      intro k hk
      rw [getv, List.lookup, hk, getv]
    have hgetv_self : getv ((k0, v0) :: b') k0 = v0 := by
      rw [getv, List.lookup, BEq.refl]
      rfl
    have hssum : seriesSum ((k0, v0) :: b') = v0.getD 0 + seriesSum b' := by
      rw [seriesSum, List.map_cons, List.sum_cons, seriesSum]
    by_cases hk : k0 ∈ ks
    · obtain ⟨l1, l2, rfl⟩ := List.append_of_mem hk
      obtain ⟨hn1, hn2, hdisj⟩ := List.nodup_append.mp hnd
      have hk0l2 : k0 ∉ l2 := (List.nodup_cons.mp hn2).1
      have hk0l1 : k0 ∉ l1 := fun hmem =>
        hdisj hmem (List.mem_cons_self k0 l2)
      have hne1 : ∀ k ∈ l1, ((getv ((k0, v0) :: b') k).getD 0)
          = (getv b' k).getD 0 := by
        intro k hkk
        rw [hgetv_ne k (by simp; intro he; subst he; exact hk0l1 hkk)]
      have hne2 : ∀ k ∈ l2, ((getv ((k0, v0) :: b') k).getD 0)
          = (getv b' k).getD 0 := by
        intro k hkk
        rw [hgetv_ne k (by simp; intro he; subst he; exact hk0l2 hkk)]
      have hnodup12 : (l1 ++ l2).Nodup := by
        refine List.nodup_append.mpr ⟨hn1, (List.nodup_cons.mp hn2).2, ?_⟩
        intro x hx1 hx2
        exact hdisj hx1 (List.mem_cons_of_mem _ hx2)
      have hih := ih (l1 ++ l2) hnodup12
      rw [List.map_append, List.sum_append] at hih
      rw [List.map_append, List.map_cons, List.sum_append, List.sum_cons,
        List.map_congr_left hne1, List.map_congr_left hne2,
        hgetv_self, hssum]
      omega
    · have hne : ∀ k ∈ ks, ((getv ((k0, v0) :: b') k).getD 0)
          = (getv b' k).getD 0 := by
        intro k hkk
        rw [hgetv_ne k (by simp; intro he; subst he; exact hk hkk)]
      rw [List.map_congr_left hne, hssum]
      have := ih ks hnd
      omega

/-- Pandas series addition never increases the numeric total beyond the sum
of the operands' totals (keys aligned in only one operand become NaN and are
skipped by `sum()`). -/
theorem seriesSum_seriesAdd_le {K : Type} [BEq K] [LawfulBEq K]
    (a b : CountSeries K) (hnd : (a.map (fun kv => kv.1)).Nodup) :
    seriesSum (seriesAdd a b) ≤ seriesSum a + seriesSum b := by
  rw [seriesAdd, seriesSum_append, seriesSum_map_none, Nat.add_zero]
  have hpt : ∀ kv ∈ a,
      ((match kv.2, getv b kv.1 with
        | some x, some y => some (x + y)
        | _, _ => (none : Option Nat)).getD 0)
        ≤ kv.2.getD 0 + (getv b kv.1).getD 0 := by
    intro kv _
    cases kv.2 <;> cases getv b kv.1 <;> simp
  calc seriesSum (a.map (fun kv =>
        (kv.1, match kv.2, getv b kv.1 with
               | some x, some y => some (x + y)
               | _, _ => none)))
      = (a.map (fun kv =>
          (match kv.2, getv b kv.1 with
           | some x, some y => some (x + y)
           | _, _ => (none : Option Nat)).getD 0)).sum := by
        rw [seriesSum, List.map_map]; rfl
    _ ≤ (a.map (fun kv => kv.2.getD 0 + (getv b kv.1).getD 0)).sum :=
        List.sum_le_sum hpt
    _ = (a.map (fun kv => kv.2.getD 0)).sum
          + (a.map (fun kv => (getv b kv.1).getD 0)).sum := by
        rw [← List.sum_map_add]
    _ ≤ seriesSum a + seriesSum b := by
        refine Nat.add_le_add (le_of_eq rfl) ?_
        have : a.map (fun kv => (getv b kv.1).getD 0)
            = (a.map (fun kv => kv.1)).map (fun k => (getv b k).getD 0) := by
          rw [List.map_map]; rfl
        rw [this]
        exact sum_getv_le_seriesSum b _ hnd

/-- Pandas series addition of tables with pairwise-distinct keys again has
pairwise-distinct keys. -/
theorem seriesAdd_keys_nodup {K : Type} [BEq K] [LawfulBEq K]
    (a b : CountSeries K) (ha : (a.map (fun kv => kv.1)).Nodup)
    (hb : (b.map (fun kv => kv.1)).Nodup) :
    ((seriesAdd a b).map (fun kv => kv.1)).Nodup := by
  rw [seriesAdd, List.map_append]
  have h1 : ((a.map (fun kv => (kv.1,
      match kv.2, getv b kv.1 with
      | some x, some y => some (x + y)
      | _, _ => (none : Option Nat)))).map (fun kv => kv.1))
      = a.map (fun kv => kv.1) := by
    rw [List.map_map]; rfl
  have h2 : (((b.filter (fun kv => (a.lookup kv.1).isNone)).map
      (fun kv => (kv.1, (none : Option Nat)))).map (fun kv => kv.1))
      = (b.filter (fun kv => (a.lookup kv.1).isNone)).map
          (fun kv => kv.1) := by
    rw [List.map_map]; rfl
  rw [h1, h2]
  refine List.nodup_append.mpr ⟨ha, ?_, ?_⟩
  · exact ((List.filter_sublist b).map (fun kv => kv.1)).nodup hb
  · intro x hx1 hx2
    obtain ⟨kv, hkv, rfl⟩ := List.mem_map.mp hx2
    obtain ⟨hkvb, hkvnone⟩ := List.mem_filter.mp hkv
    have hlk : a.lookup kv.1 = none := by
      cases h : a.lookup kv.1
      · rfl
      · rw [h] at hkvnone; simp at hkvnone
    exact (lookup_eq_none_iff a kv.1).mp hlk hx1

/-- No element equal to `a` in `m` means the indicator sum is zero. -/
theorem sum_indicator_zero {α : Type} [BEq α] [LawfulBEq α]
    (m : List α) (a : α) (h : a ∉ m) :
    (m.map (fun x => if a == x then 1 else 0)).sum = 0 := by
  induction m with
  | nil => rfl
  | cons b rest ih =>
    rw [List.map_cons, List.sum_cons]
    have hb : (a == b) = false := by
      rw [beq_eq_false_iff_ne]
      intro he
      exact h (he ▸ List.mem_cons_self b rest)
    rw [hb, ih (fun hr => h (List.mem_cons_of_mem b hr))]
    simp

/-- With pairwise-distinct elements, the indicator sum of a member is one. -/
theorem sum_indicator_one {α : Type} [BEq α] [LawfulBEq α]
    (m : List α) (a : α) (hnd : m.Nodup) (h : a ∈ m) :
    (m.map (fun x => if a == x then 1 else 0)).sum = 1 := by
  induction m with
  | nil => exact absurd h (List.not_mem_nil a)
  | cons b rest ih =>
    rw [List.map_cons, List.sum_cons]
    obtain ⟨hb, hndrest⟩ := List.nodup_cons.mp hnd
    by_cases hba : (a == b) = true
    · have : a = b := eq_of_beq hba
      subst this
      rw [hba, sum_indicator_zero rest a hb]
      simp
    · rw [Bool.not_eq_true] at hba
      rw [hba]
      have harest : a ∈ rest := by
        rcases List.mem_cons.mp h with h' | h'
        · subst h'; simp at hba
        · exact h'
      rw [ih hndrest harest]
      simp

/-- Total of the per-distinct-value counts of a list is its length. -/
theorem sum_dedup_count {α : Type} [DecidableEq α] [BEq α] [LawfulBEq α]
    (l : List α) :
    (l.dedup.map (fun x => l.count x)).sum = l.length := by
  induction l with
  | nil => rfl
  | cons a t ih =>
    by_cases h : a ∈ t
    · rw [List.dedup_cons_of_mem h]
      have hcnt : ∀ x ∈ t.dedup, (a :: t).count x = t.count x
          + (if a == x then 1 else 0) := by
        intro x _
        rw [List.count_cons]
      rw [List.map_congr_left hcnt, List.sum_map_add]
      have hone : (t.dedup.map (fun x => if a == x then 1 else 0)).sum = 1 :=
        sum_indicator_one t.dedup a (List.nodup_dedup t)
          (List.mem_dedup.mpr h)
      rw [hone, ih, List.length_cons]
    · rw [List.dedup_cons_of_not_mem h, List.map_cons, List.sum_cons]
      have hself : (a :: t).count a = t.count a + 1 := by
        rw [List.count_cons]
        simp
      have hzero : t.count a = 0 := List.count_eq_zero.mpr h
      have hcnt : ∀ x ∈ t.dedup, (a :: t).count x = t.count x := by
        intro x hx
        rw [List.count_cons]
        have : (a == x) = false := by
          rw [beq_eq_false_iff_ne]
          intro he
          exact h (he ▸ List.mem_dedup.mp hx)
        rw [this]
        simp
      rw [hself, hzero, List.map_congr_left hcnt, ih, List.length_cons]
      omega

/-- Keys of a chunk's combination table are pairwise distinct. -/
theorem chunkCombos_keys_nodup (dims : List Nat) (c : List Row) :
    ((chunkCombos dims c).map (fun kv => kv.1)).Nodup := by
  rw [chunkCombos, List.map_map]
  have h1 : ((fun (kv : List String × Option Nat) => kv.1)
      ∘ (fun k => (k, some ((c.filterMap (dimKey dims)).count k))))
      = fun k => k := rfl
  have h2 : ((c.filterMap (dimKey dims)).dedup.map (fun k => k))
      = (c.filterMap (dimKey dims)).dedup := List.map_id _
  rw [h1, h2]
  exact List.nodup_dedup _

/-- A chunk's combination table sums exactly to the number of rows with all
dimension values present. -/
theorem seriesSum_chunkCombos (dims : List Nat) (c : List Row) :
    seriesSum (chunkCombos dims c) = (c.filterMap (dimKey dims)).length := by
  rw [chunkCombos, seriesSum, List.map_map]
  have h1 : ((fun (kv : List String × Option Nat) => kv.2.getD 0)
      ∘ (fun k => (k, some ((c.filterMap (dimKey dims)).count k))))
      = fun k => (c.filterMap (dimKey dims)).count k := rfl
  rw [h1]
  exact sum_dedup_count _

/-- The combination-table component of one chunk update (source lines
517-521), as folded by the chunk loop. -/
def combosStep (dims : List Nat) (acc : Option (CountSeries (List String)))
    (c : List Row) : Option (CountSeries (List String)) :=
  some (match acc with
        | none => chunkCombos dims c
        | some prev => seriesAdd prev (chunkCombos dims c))

/-- Projecting the chunk fold onto its combination table. -/
theorem foldl_updateChunk_combos (dims : List Nat) (tsIdx ncols : Nat) :
    ∀ (chunks : List (List Row)) (st : AggState),
      (chunks.foldl (updateChunk dims tsIdx ncols) st).unique_dimension_combos
        = chunks.foldl (combosStep dims) st.unique_dimension_combos := by
  intro chunks
  induction chunks with
  | nil => intro st; rfl
  | cons c rest ih =>
    intro st
    rw [List.foldl_cons, List.foldl_cons, ih]
    rfl

/-- Projecting the chunk fold onto its record count. -/
theorem foldl_updateChunk_total (dims : List Nat) (tsIdx ncols : Nat) :
    ∀ (chunks : List (List Row)) (st : AggState),
      (chunks.foldl (updateChunk dims tsIdx ncols) st).total_records
        = st.total_records + (chunks.map (fun c => c.length)).sum := by
  intro chunks
  induction chunks with
  | nil => intro st; simp
  | cons c rest ih =>
    intro st
    rw [List.foldl_cons, ih, List.map_cons, List.sum_cons]
    show st.total_records + c.length + _ = _
    omega

/-- Folding the combination-table update over chunks keeps the numeric total
bounded by the number of fully-dimensioned rows seen. -/
theorem combosFold_sum_le (dims : List Nat) :
    ∀ (chunks : List (List Row)) (acc : CountSeries (List String)),
      (acc.map (fun kv => kv.1)).Nodup →
      seriesSumO (chunks.foldl (combosStep dims) (some acc))
        ≤ seriesSum acc
          + (chunks.map (fun c => (c.filterMap (dimKey dims)).length)).sum := by
  intro chunks
  induction chunks with
  | nil =>
    intro acc _
    simp [seriesSumO]
  | cons c rest ih =>
    intro acc hnd
    rw [List.foldl_cons]
    have hstep : combosStep dims (some acc) c
        = some (seriesAdd acc (chunkCombos dims c)) := rfl
    rw [hstep, List.map_cons, List.sum_cons]
    have h1 := ih (seriesAdd acc (chunkCombos dims c))
      (seriesAdd_keys_nodup _ _ hnd (chunkCombos_keys_nodup dims c))
    have h2 := seriesSum_seriesAdd_le acc (chunkCombos dims c) hnd
    rw [seriesSum_chunkCombos] at h2
    omega

/-- The final combination table of one file's chunk stream sums to at most
the number of rows whose dimension values are all present. -/
theorem runFile_combos_le (dims : List Nat) (tsIdx ncols : Nat)
    (chunks : List (List Row)) :
    seriesSumO ((runFile dims tsIdx ncols chunks).unique_dimension_combos)
      ≤ (chunks.map (fun c => (c.filterMap (dimKey dims)).length)).sum := by
  rw [runFile, foldl_updateChunk_combos]
  cases chunks with
  | nil => simp [seriesSumO, initAggState]
  | cons c rest =>
    rw [List.foldl_cons]
    have hstep : combosStep dims initAggState.unique_dimension_combos c
        = some (chunkCombos dims c) := rfl
    rw [hstep, List.map_cons, List.sum_cons]
    have h1 := combosFold_sum_le dims rest (chunkCombos dims c)
      (chunkCombos_keys_nodup dims c)
    rw [seriesSum_chunkCombos] at h1
    omega

/-- A row missing the value of one of the dimension columns has no joint
dimension key. -/
theorem dimKey_eq_none {dims : List Nat} {r : Row} {i : Nat}
    (hi : i ∈ dims) (hnull : cellAt r i = none) : dimKey dims r = none := by
  induction dims with
  | nil => exact absurd hi (List.not_mem_nil i)
  | cons j rest ih =>
    rw [dimKey]
    rcases List.mem_cons.mp hi with h | h
    · subst h
      rw [hnull]
    · rw [ih h]
      cases cellAt r j <;> rfl

/-- Removing an element that `f` drops does not change `filterMap f`. -/
theorem filterMap_erase_of_none {α β : Type} [BEq α] [LawfulBEq α]
    (f : α → Option β) (l : List α) (r : α) (hr : r ∈ l) (hf : f r = none) :
    (l.erase r).filterMap f = l.filterMap f := by
  induction l with
  | nil => exact absurd hr (List.not_mem_nil r)
  | cons a rest ih =>
    rw [List.erase_cons]
    by_cases h : (a == r) = true
    · rw [if_pos h]
      have : a = r := eq_of_beq h
      subst this
      rw [List.filterMap_cons, hf]
    · rw [if_neg h]
      have hrrest : r ∈ rest := by
        rcases List.mem_cons.mp hr with h' | h'
        · subst h'; simp at h
        · exact h'
      rw [List.filterMap_cons, List.filterMap_cons, ih hrrest]

/-- A `filterMap` that drops a member of the list is strictly shorter than
the list. -/
theorem length_filterMap_lt {α β : Type} (f : α → Option β) :
    ∀ (l : List α) (r : α), r ∈ l → f r = none →
      (l.filterMap f).length < l.length := by
  intro l
  induction l with
  | nil => intro r hr; exact absurd hr (List.not_mem_nil r)
  | cons a rest ih =>
    intro r hr hf
    rw [List.filterMap_cons, List.length_cons]
    cases hfa : f a with
    | none =>
      dsimp only
      rcases List.mem_cons.mp hr with h' | h'
      · have := List.length_filterMap_le f rest
        omega
      · have := ih r h' hf
        omega
    | some b =>
      dsimp only
      have hrrest : r ∈ rest := by
        rcases List.mem_cons.mp hr with h' | h'
        · subst h'; rw [hf] at hfa; exact absurd hfa (by simp)
        · exact h'
      have := ih r hrrest hf
      rw [List.length_cons]
      omega

/-- The value of any row of a chunk is a positively-counted key of that
chunk's per-column value-count table (`value_counts(dropna=False)` — a
missing value is itself a counted key). -/
theorem chunkValueCounts_hits (i : Nat) (c : List Row) (r : Row)
    (hr : r ∈ c) :
    ∃ n, getv (chunkValueCounts i c) (cellAt r i) = some n ∧ 0 < n := by
  have hv : cellAt r i ∈ c.map (fun r => cellAt r i) :=
    List.mem_map_of_mem _ hr
  have hvd : cellAt r i ∈ (c.map (fun r => cellAt r i)).dedup :=
    List.mem_dedup.mpr hv
  refine ⟨(c.map (fun r => cellAt r i)).count (cellAt r i), ?_, ?_⟩
  · rw [chunkValueCounts, getv,
      lookup_map_self _ (fun v => some ((c.map (fun r => cellAt r i)).count v))
        _ hvd]
    rfl
  · exact List.count_pos_iff.mpr hv

/-- C10: a row with a missing value in some dimension column contributes a
positively-counted key to every per-dimension value-count table of its chunk
(missing values are counted as distinct values by
`value_counts(dropna=False)`), contributes to no entry of the chunk's joint
combination table (removing the row leaves `groupby(...).size()` unchanged),
and consequently the final combination table's numeric total is strictly
smaller than the run's total record count. -/
theorem null_dimension_row_counting (dims : List Nat) (tsIdx ncols : Nat)
    (chunks : List (List Row)) (c : List Row) (r : Row) (i : Nat)
    (hc : c ∈ chunks) (hr : r ∈ c) (hi : i ∈ dims)
    (hnull : cellAt r i = none) :
    (∀ j ∈ dims, ∃ n,
      getv (chunkValueCounts j c) (cellAt r j) = some n ∧ 0 < n) ∧
    chunkCombos dims (c.erase r) = chunkCombos dims c ∧
    seriesSumO ((runFile dims tsIdx ncols chunks).unique_dimension_combos)
      < (runFile dims tsIdx ncols chunks).total_records := by
  have hdk : dimKey dims r = none := dimKey_eq_none hi hnull
  refine ⟨fun j _ => chunkValueCounts_hits j c r hr, ?_, ?_⟩
  · have h := filterMap_erase_of_none (dimKey dims) c r hr hdk
    rw [chunkCombos, chunkCombos, h]
  · have hle := runFile_combos_le dims tsIdx ncols chunks
    have htot : (runFile dims tsIdx ncols chunks).total_records
        = (chunks.map (fun c => c.length)).sum := by
      rw [runFile, foldl_updateChunk_total]
      simp [initAggState]
    have hstrict : (chunks.map
          (fun c => (c.filterMap (dimKey dims)).length)).sum
        < (chunks.map (fun c => c.length)).sum := by
      obtain ⟨l1, l2, rfl⟩ := List.append_of_mem hc
      rw [List.map_append, List.map_cons, List.sum_append, List.sum_cons,
        List.map_append, List.map_cons, List.sum_append, List.sum_cons]
      have h1 : ((l1.map (fun c => (c.filterMap (dimKey dims)).length)).sum
          ≤ (l1.map (fun c => c.length)).sum) :=
        List.sum_le_sum (fun c _ => List.length_filterMap_le _ _)
      have h2 : ((l2.map (fun c => (c.filterMap (dimKey dims)).length)).sum
          ≤ (l2.map (fun c => c.length)).sum) :=
        List.sum_le_sum (fun c _ => List.length_filterMap_le _ _)
      have hmid : (c.filterMap (dimKey dims)).length < c.length :=
        length_filterMap_lt (dimKey dims) c r hr hdk
      omega
    omega

/-- A row whose `item_id` dimension is missing. -/
def rowNullA : Row := [none, some "2024-01-01", some "1.0"]

/-- A chunk containing the null-dimension row and a complete row. -/
def chunkW : List Row := [rowNullA, rowA]

/-- Witness for C10 at a concrete one-chunk stream containing a
null-dimension row. -/
theorem null_dimension_row_counting_witness :
    (∀ j ∈ [0], ∃ n,
      getv (chunkValueCounts j chunkW) (cellAt rowNullA j) = some n ∧ 0 < n) ∧
    chunkCombos [0] (chunkW.erase rowNullA) = chunkCombos [0] chunkW ∧
    seriesSumO ((runFile [0] 1 3 [chunkW]).unique_dimension_combos)
      < (runFile [0] 1 3 [chunkW]).total_records :=
  null_dimension_row_counting [0] 1 3 [chunkW] chunkW rowNullA 0
    (by decide) (by decide) (by decide) (by decide)
